import Mathlib

/-!
Shallow embedding of the hypertile attention hijack
(`modules/sd_hijack_hypertile.py`) for verification.

The embedding covers:
* `possible_tile_sizes` — the tile-size selector (divisor enumeration,
  minimum-size filter, distance sort, truncation);
* `parse_list` — the list pretty-printer;
* the random tile-grid draw `make_ns` performed inside the wrapped forward;
* the einops `rearrange` partition/reassembly index maps of the 4-D branch;
* the try/except structure of the flattened-sequence (Unet) branch;
* the patch/restore protocol of the `split_attention` context manager.

Machine integers are modelled as `Nat` (all quantities involved are
non-negative sizes; Python floor division on non-negative ints coincides
with `Nat` division).  Fallible Python code (raising) is modelled with
`Option`/`Except`.  `torch.argsort` defaults to `stable=False`, which
leaves the relative order of equal-keyed elements unspecified; it is
therefore modelled twice: the relation `IsArgsortOutput` is the faithful
contract (any permutation of the candidates that is non-decreasing in the
key is an admissible outcome), and the function `possible_tile_sizes`
fixes one admissible realization (stable: ties by original position),
proven admissible in `possible_tile_sizes_isOutput` and used only by
properties that are insensitive to the tie order.
-/

namespace Hypertile

/-! ## Tile size selector: `possible_tile_sizes` -/

/-- The sort key of candidate `n`: `(dimension // n).sub(tile_size).abs()`,
i.e. the absolute difference between the resulting tile edge and the target. -/
def distKey (dimension tile_size n : Nat) : Nat :=
  Nat.dist (dimension / n) tile_size

/-- Comparison realising ONE admissible `torch.argsort` outcome on a
strictly increasing candidate list: sort by key, ties by value
(= original position).  Torch's default `stable=False` does not
guarantee this tie order; the faithful contract is `IsArgsortOutput`. -/
def argsortLE (dimension tile_size : Nat) (a b : Nat) : Bool :=
  decide (distKey dimension tile_size a < distKey dimension tile_size b)
  || (decide (distKey dimension tile_size a = distKey dimension tile_size b)
      && decide (a ≤ b))

/-- The stable-argsort comparison as a relation, for `List.insertionSort`. -/
def argsortRel (dimension tile_size : Nat) (a b : Nat) : Prop :=
  argsortLE dimension tile_size a b = true

instance (d t : Nat) : DecidableRel (argsortRel d t) :=
  fun _ _ => Bool.decEq _ _

instance (d t : Nat) : IsTotal Nat (argsortRel d t) := by
  constructor
  intro a b
  simp only [argsortRel, argsortLE, Bool.or_eq_true, Bool.and_eq_true, decide_eq_true_eq]
  omega

instance (d t : Nat) : IsTrans Nat (argsortRel d t) := by
  constructor
  intro a b c hab hbc
  simp only [argsortRel, argsortLE, Bool.or_eq_true, Bool.and_eq_true,
    decide_eq_true_eq] at hab hbc ⊢
  omega

/-- `n = torch.arange(1, dimension + 1)` followed by the two boolean-mask
filters: `n[dimension // n // 8 * 8 * n == dimension]` and
`n[dimension // n >= min_tile_size]` (with the clamped minimum). -/
def divisorCandidates (dimension minClamped : Nat) : List Nat :=
  ((List.range' 1 dimension).filter
      fun n => decide (dimension / n / 8 * 8 * n = dimension)).filter
    fun n => decide (minClamped ≤ dimension / n)

/-- `possible_tile_sizes(dimension, tile_size, min_tile_size, tile_options)`.
`none` models the `assert tile_options >= 1` failing. -/
def possible_tile_sizes (dimension tile_size min_tile_size tile_options : Nat) :
    Option (List Nat) :=
  if tile_options < 1 then none
  else
    some ((List.insertionSort (argsortRel dimension tile_size)
        (divisorCandidates dimension
          (min (min min_tile_size tile_size) dimension))).take tile_options)

/-- The faithful contract of `c.argsort()` applied to the candidate list
`c` under `torch.argsort`'s default `stable=False`: `s` is an admissible
reordering iff it is a permutation of `c` that is non-decreasing in the
distance key.  The relative order of equal-keyed candidates is
unspecified, so this is a relation, not a function. -/
def IsArgsortOutput (dimension tile_size : Nat) (c s : List Nat) : Prop :=
  s.Perm c ∧ s.Pairwise (fun a b =>
    distKey dimension tile_size a ≤ distKey dimension tile_size b)

/-- Admissible results of `possible_tile_sizes` under the unspecified
tie order: some admissible argsort outcome of the candidate list,
truncated to `tile_options` (which the assert requires to be ≥ 1). -/
def IsPossibleTileSizesOutput
    (dimension tile_size min_tile_size tile_options : Nat)
    (l : List Nat) : Prop :=
  1 ≤ tile_options ∧ ∃ s,
    IsArgsortOutput dimension tile_size
      (divisorCandidates dimension
        (min (min min_tile_size tile_size) dimension)) s ∧
    l = s.take tile_options

/-! ## `parse_list` -/

/-- Python's `str` of a list of ints: `"[1, 2, 3]"`. -/
def pyStr (x : List Int) : String :=
  "[" ++ String.intercalate ", " (x.map toString) ++ "]"

/-- `parse_list(x)`: on the empty-list branch it evaluates `x[0]`;
`none` models the `IndexError` that raises. -/
def parse_list (x : List Int) : Option String :=
  if x.length = 0 then
    (x.get? 0).map toString
  else
    some (pyStr x)

/-! ## The random tile-grid draw inside the wrapper (`make_ns`) -/

/-- `random.randint(lo, hi)`: uniform on `[lo, hi]`; raises (`none`) when
`hi < lo` (empty range).  `seed` stands for the RNG draw. -/
def randint (lo hi : Int) (seed : Nat) : Option Int :=
  if hi < lo then none
  else some (lo + (seed : Int) % (hi - lo + 1))

/-- `make_ns = lambda: (nhs[random.randint(0, len(nhs) - 1)],
nws[random.randint(0, len(nws) - 1)])`.  `none` models a raise
(empty-range `randint` on an empty candidate list). -/
def make_ns (nhs nws : List Nat) (seedH seedW : Nat) : Option (Nat × Nat) := do
  let i ← randint 0 ((nhs.length : Int) - 1) seedH
  let j ← randint 0 ((nws.length : Int) - 1) seedW
  let nh ← nhs.get? i.toNat
  let nw ← nws.get? j.toNat
  pure (nh, nw)

/-! ## The 4-D (VAE) branch: einops partition and reassembly

A 4-D tensor of shape `(b, c, H, W)` is modelled as its index map
`Nat → Nat → Nat → Nat → Int` (entry at `(batch, channel, row, col)`);
the `rearrange` calls act on indices exactly as the einops patterns do. -/

/-- `rearrange(x, "b c (nh h) (nw w) -> (b nh nw) c h w", nh=nh, nw=nw)`:
output entry at `(b*nh*nw + ih*nw + iw, c, i, j)` is the input entry at
`(b, c, ih*h + i, iw*w + j)`. -/
def partition4d (nh nw h w : Nat) (t : Nat → Nat → Nat → Nat → Int) :
    Nat → Nat → Nat → Nat → Int :=
  fun bb c i j => t (bb / (nh * nw)) c (bb / nw % nh * h + i) (bb % nw * w + j)

/-- `rearrange(out, "(b nh nw) c h w -> b c (nh h) (nw w)", nh=nh, nw=nw)`:
output entry at `(b, c, i, j)` is the input entry at
`((b*nh + i/h)*nw + j/w, c, i % h, j % w)`. -/
def reassemble4d (nh nw h w : Nat) (u : Nat → Nat → Nat → Nat → Int) :
    Nat → Nat → Nat → Nat → Int :=
  fun b c i j => u ((b * nh + i / h) * nw + j / w) c (i % h) (j % w)

/-! ## The flattened-sequence (Unet) branch: try/except structure

The branch's body is
```
try:
    if do_split:
        x = rearrange(x, ...)          # rebinds x!
    out = forward(x, ...)
    if do_split:
        out = rearrange(out, ...)      # reassembly, two rearranges
        out = rearrange(out, ...)
except Exception:
    ...log once...
    out = forward(x, ...)              # x is the CURRENT binding
```
Each step is a fallible map `α → Except ε α`; the model below mirrors the
control flow, in particular that the except-branch fallback receives the
current value of `x` (rebound by the partition rearrange on success). -/

def unetTiledCall {α ε : Type} (doSplit : Bool)
    (partStep reasmA reasmB fwd : α → Except ε α) (x0 : α) : Except ε α :=
  if doSplit then
    match partStep x0 with
    | .error _ => fwd x0
    | .ok x1 =>
      match fwd x1 with
      | .error _ => fwd x1
      | .ok out =>
        match reasmA out with
        | .error _ => fwd x1
        | .ok outA =>
          match reasmB outA with
          | .error _ => fwd x1
          | .ok outB => .ok outB
  else
    match fwd x0 with
    | .error _ => fwd x0
    | .ok out => .ok out

/-! ## `split_attention`: patch / restore protocol

A forward handle is either an unwrapped original or the hijack wrapper
applied to an inner handle; a submodule carries its class qualname, its
dotted name, its `forward` attribute and the optional `_original_forward`
attribute (`none` = attribute absent). -/

inductive Handle where
  | base (id : Nat)
  | wrapped (inner : Handle)
deriving DecidableEq, Repr

/-- Number of wrapper layers on a handle. -/
def Handle.wrapDepth : Handle → Nat
  | .base _ => 0
  | .wrapped inner => inner.wrapDepth + 1

structure Module where
  qualname : String
  name : String
  forward : Handle
  originalForward : Option Handle
deriving DecidableEq, Repr

/-- The hijack condition of `split_attention`'s loop: class in
`("Attention", "CrossAttention", "AttnBlock")`, name not ending in
`"attn2"` or `"attn_2"` (cross-attention is skipped). -/
def isHijackTarget (m : Module) : Bool :=
  (m.qualname == "Attention" || m.qualname == "CrossAttention"
    || m.qualname == "AttnBlock")
  && !(m.name.endsWith "attn2" || m.name.endsWith "attn_2")

/-- One step of the patch loop: save `forward` into `_original_forward`
and replace `forward` by the wrapper. -/
def hijackModule (m : Module) : Module :=
  if isHijackTarget m then
    { m with originalForward := some m.forward, forward := .wrapped m.forward }
  else m

/-- One step of the restore loop (the `finally` block): if
`_original_forward` is present, put it back into `forward` and delete it. -/
def restoreModule (m : Module) : Module :=
  match m.originalForward with
  | some f => { m with forward := f, originalForward := none }
  | none => m

/-- The pre-`yield` phase: patch every qualifying submodule. -/
def enterScope (net : List Module) : List Module := net.map hijackModule

/-- The `finally` phase: restore every submodule carrying wrapper state. -/
def exitScope (net : List Module) : List Module := net.map restoreModule

/-- How the yielded region terminates. -/
inductive ExitKind where
  | normal
  | exceptional
deriving DecidableEq, Repr

/-- `with split_attention(layer): body` — patch, run the body (which
terminates normally or with an exception), then run the `finally` block
on the corresponding exit path.  The body does not touch the patched
attributes (the wrapper closes over the saved handle and never writes
module attributes), so the module list is carried through unchanged. -/
def runSplitAttention (net : List Module) (exit : ExitKind) : List Module :=
  match exit with
  | .normal => exitScope (enterScope net)
  | .exceptional => exitScope (enterScope net)

/-! ## Concrete instances used to evaluate the theorems -/

/-- A concrete partition step that succeeds and changes the value. -/
def c4partition (x : Nat) : Except Unit Nat := .ok (x + 1)

/-- A concrete wrapped forward that succeeds only on the unpartitioned
input `0`. -/
def c4forward (x : Nat) : Except Unit Nat :=
  if x = 0 then .ok 100 else .error ()

/-- A concrete reassembly step that always succeeds. -/
def c4reasm (x : Nat) : Except Unit Nat := .ok x

/-- A concrete 4-D tensor, given by an injective-enough index polynomial. -/
def c5tensor : Nat → Nat → Nat → Nat → Int :=
  fun b c i j => (b : Int) + 2 * c + 3 * i + 5 * j

/-- A concrete self-attention submodule in its pre-scope state. -/
def sampleAttn : Module :=
  { qualname := "Attention", name := "mid.attn1", forward := .base 0,
    originalForward := none }

/-- A concrete network: one hijack target, one cross-attention module
(skipped by the name rule), one non-attention module. -/
def sampleNet : List Module :=
  [sampleAttn,
   { qualname := "CrossAttention", name := "blocks.0.attn2", forward := .base 1,
     originalForward := none },
   { qualname := "Linear", name := "proj", forward := .base 2,
     originalForward := none }]

/-! ## Helper lemmas -/

/-- The boolean mask `dimension // n // 8 * 8 * n == dimension` keeps
exactly the divisors `n` of `dimension` whose cofactor is a multiple
of 8. -/
lemma divisor_cond_iff (d n : Nat) (hn : 0 < n) :
    d / n / 8 * 8 * n = d ↔ d % n = 0 ∧ d / n % 8 = 0 := by
  have h1 : n * (d / n) + d % n = d := Nat.div_add_mod d n
  have h2 : 8 * (d / n / 8) + d / n % 8 = d / n := Nat.div_add_mod (d / n) 8
  constructor
  · intro h
    have e : d / n / 8 * 8 * n + (d / n % 8 * n + d % n) = d := by
      calc d / n / 8 * 8 * n + (d / n % 8 * n + d % n)
          = (8 * (d / n / 8) + d / n % 8) * n + d % n := by ring
        _ = n * (d / n) + d % n := by rw [h2]; ring
        _ = d := h1
    have e2 : d / n / 8 * 8 * n + (d / n % 8 * n + d % n)
        = d / n / 8 * 8 * n + 0 := by rw [Nat.add_zero, e, h]
    have hy : d / n % 8 * n + d % n = 0 := Nat.add_left_cancel e2
    have hmn : d / n % 8 * n = 0 := by omega
    have hs : d / n % 8 = 0 := by
      rcases Nat.mul_eq_zero.mp hmn with hz | hz
      · exact hz
      · omega
    exact ⟨by omega, hs⟩
  · rintro ⟨hr, hs⟩
    have h3 : d / n / 8 * 8 = d / n := by omega
    rw [h3]
    exact Nat.div_mul_cancel (Nat.dvd_of_mod_eq_zero hr)

/-- Quotient extraction for a grid-folded index. -/
lemma grid_div (x y n : Nat) (hy : y < n) : (x * n + y) / n = x := by
  have hn : 0 < n := by omega
  rw [Nat.add_comm, Nat.mul_comm, Nat.add_mul_div_left _ _ hn,
    Nat.div_eq_of_lt hy, Nat.zero_add]

/-- Remainder extraction for a grid-folded index. -/
lemma grid_mod (x y n : Nat) (hy : y < n) : (x * n + y) % n = y := by
  rw [Nat.add_comm, Nat.add_mul_mod_self_right, Nat.mod_eq_of_lt hy]

/-- Restoring after hijacking is the identity on a module without stale
wrapper state. -/
lemma restore_hijack_of_none (m : Module) (h : m.originalForward = none) :
    restoreModule (hijackModule m) = m := by
  cases m with
  | mk q nm f o =>
    have ho : o = none := h
    subst ho
    unfold hijackModule
    by_cases ht : isHijackTarget ⟨q, nm, f, none⟩
    · rw [if_pos ht]; rfl
    · rw [if_neg ht]; rfl

/-- The deterministic stable-argsort realization is one admissible
`torch.argsort` outcome: every `possible_tile_sizes` result satisfies
the nondeterministic contract. -/
lemma possible_tile_sizes_isOutput (d t mts o : Nat) (l : List Nat)
    (hl : possible_tile_sizes d t mts o = some l) :
    IsPossibleTileSizesOutput d t mts o l := by
  rw [possible_tile_sizes] at hl
  by_cases ho : o < 1
  · rw [if_pos ho] at hl; cases hl
  · rw [if_neg ho] at hl
    refine ⟨by omega, List.insertionSort (argsortRel d t)
        (divisorCandidates d (min (min mts t) d)),
      ⟨List.perm_insertionSort _ _, ?_⟩, (Option.some_inj.mp hl).symm⟩
    have hs : List.Pairwise (argsortRel d t)
        (List.insertionSort (argsortRel d t)
          (divisorCandidates d (min (min mts t) d))) :=
      List.sorted_insertionSort (argsortRel d t) _
    refine hs.imp ?_
    intro a b hab
    simp only [argsortRel, argsortLE, Bool.or_eq_true, Bool.and_eq_true,
      decide_eq_true_eq] at hab
    omega

/-- The `finally` block undoes the patch loop on a clean network. -/
lemma exit_enter_eq_self (net : List Module)
    (hclean : ∀ m ∈ net, m.originalForward = none) :
    exitScope (enterScope net) = net := by
  rw [exitScope, enterScope, List.map_map]
  induction net with
  | nil => rfl
  | cons m rest ih =>
    have hm : m.originalForward = none := hclean m (List.mem_cons_self m rest)
    have hrest : ∀ m2 ∈ rest, m2.originalForward = none := fun m2 h2 =>
      hclean m2 (List.mem_cons_of_mem m h2)
    simp only [List.map_cons, Function.comp_apply]
    rw [restore_hijack_of_none m hm, ih hrest]

/-! ## Claim theorems -/

/-- C10: `parse_list` is not total: on the empty list it takes the
`len(x) == 0` branch and evaluates `x[0]`, raising an `IndexError`
(modelled as `none`); on every non-empty list it returns `str(x)`. -/
theorem c10_parse_list_empty_raises (x : List Int) :
    parse_list [] = none ∧ (x ≠ [] → parse_list x = some (pyStr x)) := by
  constructor
  · rfl
  · intro hx
    rw [parse_list, if_neg]
    simpa using hx

/-- Witness for C10 at the concrete inputs `[]` and `[3]`. -/
theorem c10_witness :
    parse_list [] = none ∧ parse_list [3] = some (pyStr [3]) :=
  ⟨(c10_parse_list_empty_raises []).1, (c10_parse_list_empty_raises [3]).2 (by decide)⟩

/-- C4 counterexample: with a partition step that succeeds (rebinding `x`
to the partitioned tensor `1`) and a wrapped forward that succeeds on the
original input `0` but fails on the partitioned one, the wrapper does NOT
return the result of forwarding the original unpartitioned input
(`.ok 100`); the fallback runs on the rebound `x` and the error
propagates. -/
theorem c4_counterexample :
    unetTiledCall true c4partition c4reasm c4reasm c4forward 0
        = Except.error () ∧
      c4forward 0 = Except.ok 100 :=
  ⟨rfl, rfl⟩

/-- C4 amended: the except-branch fallback invokes the wrapped forward on
the current binding of `x` — the original input when the partition
rearrange itself failed, but the partitioned tensor when the wrapped
forward call or either reassembly rearrange failed. -/
theorem c4_fallback_current_binding {α ε : Type}
    (partStep reasmA reasmB fwd : α → Except ε α) (x0 x1 : α) (e : ε) :
    (partStep x0 = .error e →
        unetTiledCall true partStep reasmA reasmB fwd x0 = fwd x0)
    ∧ (partStep x0 = .ok x1 → fwd x1 = .error e →
        unetTiledCall true partStep reasmA reasmB fwd x0 = fwd x1)
    ∧ (∀ out, partStep x0 = .ok x1 → fwd x1 = .ok out →
        reasmA out = .error e →
        unetTiledCall true partStep reasmA reasmB fwd x0 = fwd x1)
    ∧ (∀ outA outB, partStep x0 = .ok x1 → fwd x1 = .ok outA →
        reasmA outA = .ok outB → reasmB outB = .error e →
        unetTiledCall true partStep reasmA reasmB fwd x0 = fwd x1) := by
  refine ⟨?_, ?_, ?_, ?_⟩
  · intro hp
    simp [unetTiledCall, hp]
  · intro hp hf
    simp [unetTiledCall, hp, hf]
  · intro out hp hf hr
    simp [unetTiledCall, hp, hf, hr]
  · intro outA outB hp hf hra hrb
    simp [unetTiledCall, hp, hf, hra, hrb]

/-- Witness for the amended C4: concrete failing-forward case; the
fallback runs on the partitioned tensor `1`. -/
theorem c4_witness :
    unetTiledCall true c4partition c4reasm c4reasm c4forward 0 = c4forward 1 :=
  (c4_fallback_current_binding c4partition c4reasm c4reasm c4forward 0 1 ()).2.1
    rfl rfl

/-- C1: whichever way the yielded region exits, the `finally` block
restores every patched submodule's forward handle to its pre-scope value
and removes the saved-original attribute; starting from a clean network
(no stale `_original_forward`), the whole network is exactly its
pre-scope state again. -/
theorem c1_scope_restores (net : List Module) (exit : ExitKind)
    (hclean : ∀ m ∈ net, m.originalForward = none) :
    runSplitAttention net exit = net := by
  have key : exitScope (enterScope net) = net := exit_enter_eq_self net hclean
  cases exit
  · exact key
  · exact key

/-- Witness for C1: a concrete network with a hijack target, a skipped
cross-attention module and a non-attention module, exiting exceptionally. -/
theorem c1_witness : runSplitAttention sampleNet .exceptional = sampleNet :=
  c1_scope_restores sampleNet .exceptional (by decide)

/-- C6: during one activation each qualifying submodule is wrapped at
most once (never a wrapper of a wrapper), and on exit — normal or
exceptional — every patched submodule has been unpatched: no wrapper
layer and no saved-original attribute remains. -/
theorem c6_single_patch_invariant (net : List Module) (exit : ExitKind)
    (hclean : ∀ m ∈ net, m.originalForward = none ∧ m.forward.wrapDepth = 0) :
    (∀ m2 ∈ enterScope net, m2.forward.wrapDepth ≤ 1) ∧
      (∀ m2 ∈ runSplitAttention net exit,
        m2.forward.wrapDepth = 0 ∧ m2.originalForward = none) := by
  constructor
  · intro m2 hm2
    obtain ⟨m, hm, rfl⟩ := List.mem_map.mp hm2
    have hd : m.forward.wrapDepth = 0 := (hclean m hm).2
    unfold hijackModule
    by_cases ht : isHijackTarget m
    · rw [if_pos ht]
      simp [Handle.wrapDepth, hd]
    · rw [if_neg ht]
      omega
  · intro m2 hm2
    have hrun : runSplitAttention net exit = net := by
      have key := exit_enter_eq_self net (fun m hm => (hclean m hm).1)
      cases exit
      · exact key
      · exact key
    rw [hrun] at hm2
    exact ⟨(hclean m2 hm2).2, (hclean m2 hm2).1⟩

/-- Witness for C6: the concrete network, exceptional exit, instantiated
at its hijacked attention module. -/
theorem c6_witness :
    (hijackModule sampleAttn).forward.wrapDepth ≤ 1 ∧
      ((restoreModule (hijackModule sampleAttn)).forward.wrapDepth = 0 ∧
        (restoreModule (hijackModule sampleAttn)).originalForward = none) :=
  ⟨(c6_single_patch_invariant sampleNet .exceptional (by decide)).1
      (hijackModule sampleAttn) (List.mem_cons_self _ _),
    (c6_single_patch_invariant sampleNet .exceptional (by decide)).2
      (restoreModule (hijackModule sampleAttn)) (List.mem_cons_self _ _)⟩

/-- C2: every candidate returned by `possible_tile_sizes` divides the
dimension, yields a tile edge that is a multiple of 8, and yields a tile
edge at least the clamped minimum `min(min_tile_size, tile_size,
dimension)`. -/
theorem c2_candidates_valid (d t mts o : Nat) (_hd : 1 ≤ d) (_ht : 1 ≤ t)
    (_hm : 1 ≤ mts) (ho : 1 ≤ o) (l : List Nat)
    (hl : possible_tile_sizes d t mts o = some l) (n : Nat) (hn : n ∈ l) :
    d % n = 0 ∧ d / n % 8 = 0 ∧ min (min mts t) d ≤ d / n := by
  rw [possible_tile_sizes, if_neg (by omega)] at hl
  obtain rfl : _ = l := Option.some_inj.mp hl
  have h1 : n ∈ List.insertionSort (argsortRel d t)
      (divisorCandidates d (min (min mts t) d)) := List.mem_of_mem_take hn
  have h2 : n ∈ divisorCandidates d (min (min mts t) d) :=
    (List.perm_insertionSort _ _).mem_iff.mp h1
  simp only [divisorCandidates, List.mem_filter, List.mem_range'_1,
    decide_eq_true_eq] at h2
  obtain ⟨⟨⟨hn1, _⟩, hdiv⟩, hmin⟩ := h2
  obtain ⟨hr, hs⟩ := (divisor_cond_iff d n (by omega)).mp hdiv
  exact ⟨hr, hs, hmin⟩

/-- Witness for C2 at `possible_tile_sizes 8 8 1 1 = some [1]`, `n = 1`. -/
theorem c2_witness :
    (8 : Nat) % 1 = 0 ∧ 8 / 1 % 8 = 0 ∧ min (min 1 8) 8 ≤ 8 / 1 :=
  c2_candidates_valid 8 8 1 1 (by decide) (by decide) (by decide) (by decide)
    [1] (by decide) 1 (by decide)

/-- C3 counterexample: `torch.argsort` (default `stable=False`) leaves
the order of equal-keyed elements unspecified.  At `dimension = 64`,
`tile_size = 12` the candidates 4 and 8 both have distance 4, and the
admissible outcome `[8, 4, 2, 1]` puts them in DESCENDING numeric
order, refuting the ties-in-ascending-`n` clause of the claim. -/
theorem c3_counterexample :
    IsPossibleTileSizesOutput 64 12 1 4 [8, 4, 2, 1] ∧
      ¬ (([8, 4, 2, 1] : List Nat).Pairwise (fun a b =>
          distKey 64 12 a < distKey 64 12 b ∨
            (distKey 64 12 a = distKey 64 12 b ∧ a < b))) := by
  constructor
  · exact ⟨by decide, [8, 4, 2, 1], ⟨by decide, by decide⟩, rfl⟩
  · decide

/-- C3 amended: under the faithful unstable-argsort contract, every
admissible result of the selector has length at most `tile_options` and
is ordered by ascending absolute difference between `dimension // n` and
`tile_size`; the relative order of equal-distance candidates is
unspecified. -/
theorem c3_ordering_nondet (d t mts o : Nat) (l : List Nat)
    (hl : IsPossibleTileSizesOutput d t mts o l) :
    l.length ≤ o ∧
      l.Pairwise (fun a b => distKey d t a ≤ distKey d t b) := by
  obtain ⟨ho, s, ⟨hperm, hsort⟩, rfl⟩ := hl
  exact ⟨List.length_take_le o s,
    List.Pairwise.sublist (List.take_sublist o s) hsort⟩

/-- Witness for the amended C3 at the concrete tie instance
`possible_tile_sizes 64 12 1 4 = some [4, 8, 2, 1]`. -/
theorem c3_witness :
    ([4, 8, 2, 1] : List Nat).length ≤ 4 ∧
      ([4, 8, 2, 1] : List Nat).Pairwise (fun a b =>
        distKey 64 12 a ≤ distKey 64 12 b) :=
  c3_ordering_nondet 64 12 1 4 [4, 8, 2, 1]
    (possible_tile_sizes_isOutput 64 12 1 4 [4, 8, 2, 1] (by decide))

/-- C9: for a positive dimension that is not a multiple of 8 no divisor
passes the alignment mask, so `possible_tile_sizes` returns the empty
list (in particular `n = 1` is not a candidate). -/
theorem c9_empty_when_unaligned (d t mts o : Nat) (_hd : 1 ≤ d)
    (h8 : d % 8 ≠ 0) (_ht : 1 ≤ t) (_hm : 1 ≤ mts) (ho : 1 ≤ o) :
    possible_tile_sizes d t mts o = some [] := by
  rw [possible_tile_sizes, if_neg (by omega)]
  have hfil : (List.range' 1 d).filter
      (fun n => decide (d / n / 8 * 8 * n = d)) = [] := by
    rw [List.filter_eq_nil_iff]
    intro n hn
    simp only [decide_eq_true_eq]
    intro hdiv
    have hn1 : 1 ≤ n := (List.mem_range'_1.mp hn).1
    obtain ⟨hr, hs⟩ := (divisor_cond_iff d n (by omega)).mp hdiv
    obtain ⟨k, hk⟩ := Nat.dvd_of_mod_eq_zero hs
    have hd2 : n * (d / n) = d := Nat.mul_div_cancel' (Nat.dvd_of_mod_eq_zero hr)
    have : d = 8 * (n * k) := by rw [← hd2, hk]; ring
    omega
  rw [divisorCandidates, hfil]
  simp

/-- Witness for C9 at the non-multiple-of-8 dimension 12. -/
theorem c9_witness : possible_tile_sizes 12 256 256 1 = some [] :=
  c9_empty_when_unaligned 12 256 256 1 (by decide) (by decide) (by decide)
    (by decide) (by decide)

/-- C8 counterexample: `dimension = 0` is a multiple of 8, yet
`possible_tile_sizes(0, 0, 1, 1)` is the empty list (the enumeration
`arange(1, dimension + 1)` is empty), so `n = 1` is not present. -/
theorem c8_counterexample :
    (0 : Nat) % 8 = 0 ∧ possible_tile_sizes 0 0 1 1 = some [] ∧
      (1 : Nat) ∉ ([] : List Nat) := by decide

/-- C8 amended: for every POSITIVE dimension that is a multiple of 8,
`possible_tile_sizes(dimension, dimension, 1, 1)` contains `n = 1`
(which has distance 0 to the target and therefore heads the ranking). -/
theorem c8_no_split_candidate (d : Nat) (hd : 1 ≤ d) (h8 : d % 8 = 0)
    (l : List Nat) (hl : possible_tile_sizes d d 1 1 = some l) : 1 ∈ l := by
  rw [possible_tile_sizes, if_neg (by decide)] at hl
  obtain rfl : _ = l := Option.some_inj.mp hl
  have h1c : (1 : Nat) ∈ divisorCandidates d (min (min 1 d) d) := by
    rw [divisorCandidates]
    simp only [List.mem_filter, List.mem_range'_1, decide_eq_true_eq]
    refine ⟨⟨⟨le_refl 1, by omega⟩, ?_⟩, ?_⟩
    · rw [Nat.div_one, Nat.mul_one]
      omega
    · rw [Nat.div_one]
      omega
  have hperm := List.perm_insertionSort (argsortRel d d)
    (divisorCandidates d (min (min 1 d) d))
  have hmem : (1 : Nat) ∈ List.insertionSort (argsortRel d d)
      (divisorCandidates d (min (min 1 d) d)) := hperm.mem_iff.mpr h1c
  have hsorted : List.Pairwise (argsortRel d d)
      (List.insertionSort (argsortRel d d)
        (divisorCandidates d (min (min 1 d) d))) :=
    List.sorted_insertionSort (argsortRel d d) _
  generalize List.insertionSort (argsortRel d d)
      (divisorCandidates d (min (min 1 d) d)) = s at hmem hsorted hperm ⊢
  cases s with
  | nil => cases hmem
  | cons a rest =>
    rcases List.mem_cons.mp hmem with h1a | h1rest
    · rw [← h1a]
      simp
    · have hrel : argsortRel d d a 1 := (List.pairwise_cons.mp hsorted).1 1 h1rest
      have hac : a ∈ divisorCandidates d (min (min 1 d) d) :=
        hperm.mem_iff.mp (List.mem_cons_self a rest)
      have ha1 : 1 ≤ a := by
        rw [divisorCandidates] at hac
        simp only [List.mem_filter, List.mem_range'_1, decide_eq_true_eq] at hac
        exact hac.1.1.1
      have hk1 : distKey d d 1 = 0 := by
        rw [distKey, Nat.div_one, Nat.dist_self]
      simp only [argsortRel, argsortLE, Bool.or_eq_true, Bool.and_eq_true,
        decide_eq_true_eq] at hrel
      have ha : a = 1 := by omega
      subst ha
      simp

/-- Witness for the amended C8 at `dimension = 8`. -/
theorem c8_witness : (1 : Nat) ∈ ([1] : List Nat) :=
  c8_no_split_candidate 8 (by decide) (by decide) [1] (by decide)

/-- C7 counterexample: for a dimension that is not a multiple of 8 the
selector returns the empty list, and the tile-grid draw on an empty
candidate list raises (`random.randint(0, -1)` has an empty range),
modelled as `none` — forward calls do not complete without raising. -/
theorem c7_counterexample :
    possible_tile_sizes 12 256 256 1 = some [] ∧
      make_ns [] [] 0 0 = none := by decide

/-- `randint(0, len(l) - 1)` on a non-empty list yields the in-range
index `seed % len(l)`. -/
lemma randint_length (l : List Nat) (s : Nat) (h : l ≠ []) :
    randint 0 ((l.length : Int) - 1) s = some ((s % l.length : Nat) : Int) := by
  have hlen : 1 ≤ l.length := List.length_pos.mpr h
  rw [randint, if_neg (by omega)]
  congr 1
  have he : (l.length : Int) - 1 - 0 + 1 = (l.length : Int) := by ring
  rw [he]
  push_cast
  ring

/-- On non-empty candidate lists the draw returns the entries selected by
the seeds. -/
lemma make_ns_eq (nhs nws : List Nat) (s1 s2 : Nat) (h1 : nhs ≠ [])
    (h2 : nws ≠ []) :
    make_ns nhs nws s1 s2 =
      some (nhs.get ⟨s1 % nhs.length, Nat.mod_lt _ (List.length_pos.mpr h1)⟩,
        nws.get ⟨s2 % nws.length, Nat.mod_lt _ (List.length_pos.mpr h2)⟩) := by
  have i1 : s1 % nhs.length < nhs.length := Nat.mod_lt _ (List.length_pos.mpr h1)
  have i2 : s2 % nws.length < nws.length := Nat.mod_lt _ (List.length_pos.mpr h2)
  unfold make_ns
  rw [randint_length nhs s1 h1, randint_length nws s2 h2]
  simp only [Option.bind_eq_bind, Option.some_bind, Int.toNat_natCast]
  rw [List.get?_eq_get i1, List.get?_eq_get i2]
  rfl

/-- C7 amended: the wrapped-forward tile-grid draw completes without
raising exactly when both candidate lists are non-empty; it then yields a
grid drawn from the candidate sets.  (With an empty candidate list it
raises — see the counterexample.) -/
theorem c7_draw_needs_nonempty (nhs nws : List Nat) (s1 s2 : Nat)
    (h1 : nhs ≠ []) (h2 : nws ≠ []) :
    (make_ns nhs nws s1 s2).isSome = true ∧
      ((make_ns nhs nws s1 s2).getD (0, 0)).1 ∈ nhs ∧
      ((make_ns nhs nws s1 s2).getD (0, 0)).2 ∈ nws := by
  rw [make_ns_eq nhs nws s1 s2 h1 h2]
  refine ⟨rfl, ?_, ?_⟩
  · exact List.get_mem _ _ _
  · exact List.get_mem _ _ _

/-- Witness for the amended C7 on the singleton candidate lists produced
by `possible_tile_sizes 512 256 256 1 = some [2]`. -/
theorem c7_witness :
    (make_ns [2] [2] 0 0).isSome = true ∧
      ((make_ns [2] [2] 0 0).getD (0, 0)).1 ∈ ([2] : List Nat) ∧
      ((make_ns [2] [2] 0 0).getD (0, 0)).2 ∈ ([2] : List Nat) :=
  c7_draw_needs_nonempty [2] [2] 0 0 (by decide) (by decide)

/-- C5: partitioning a 4-D tensor into an `nh × nw` tile grid folded into
the batch axis and then reassembling with the same grid reproduces the
original tensor at every in-range index. -/
theorem c5_partition_roundtrip (t : Nat → Nat → Nat → Nat → Int)
    (nh nw h w b c i j : Nat) (hh : 0 < h) (hw : 0 < w)
    (hi : i < nh * h) (hj : j < nw * w) :
    reassemble4d nh nw h w (partition4d nh nw h w t) b c i j = t b c i j := by
  have hih : i / h < nh := (Nat.div_lt_iff_lt_mul hh).mpr hi
  have hjw : j / w < nw := (Nat.div_lt_iff_lt_mul hw).mpr hj
  unfold reassemble4d partition4d
  rw [grid_mod (b * nh + i / h) (j / w) nw hjw]
  rw [show nh * nw = nw * nh from Nat.mul_comm nh nw]
  rw [← Nat.div_div_eq_div_mul]
  rw [grid_div (b * nh + i / h) (j / w) nw hjw]
  rw [grid_div b (i / h) nh hih, grid_mod b (i / h) nh hih]
  rw [show i / h * h + i % h = i from by rw [Nat.mul_comm]; exact Nat.div_add_mod i h]
  rw [show j / w * w + j % w = j from by rw [Nat.mul_comm]; exact Nat.div_add_mod j w]

/-- Witness for C5 on a concrete tensor, grid and index. -/
theorem c5_witness :
    reassemble4d 2 3 2 2 (partition4d 2 3 2 2 c5tensor) 1 0 3 5 =
      c5tensor 1 0 3 5 :=
  c5_partition_roundtrip c5tensor 2 3 2 2 1 0 3 5 (by decide) (by decide)
    (by decide) (by decide)

end Hypertile
